import Mathlib

/-!
# WireStorm CTMP relay: embedding of `src/WireStorm.c`

The relay accepts one producer ("source") connection, parses length-prefixed
frames from it and fans each frame out to the registered consumer
("destination") connections.

Modelling conventions

* A byte (`uint8_t`) is a `Nat`; a file descriptor and an `ssize_t` are `Int`.
* The operating system is a pair of explicit inputs: the source connection is
  a list of `Arrival`s (what the network hands to successive `recv` calls) and
  the outcome of each `send` is given by a `SendFn`, which sees how many sends
  the process has made before, the descriptor and the buffer. A `send` either
  returns a value or raises `SIGPIPE`, which terminates the process.
* System calls with an observable effect (`send`, `close`, the text written to
  `std::cerr`) are appended to logs kept in `World`, in call order.
-/

namespace WireStorm

/-! ## Constants (lines 20-24) -/

def MAX_CLIENTS : Nat := 100
def HEADER_SIZE : Nat := 8
def MAGIC_BYTE : Nat := 0xCC

/-! ## Destination registry (lines 26-54) -/

/-- The registry entry `struct DestClient { int fd; }`. -/
structure DestClient where
  fd : Int
deriving DecidableEq, Repr

/-- What a `send(fd, buffer.data(), buffer.size(), 0)` call does: it returns an
`ssize_t` (negative on error, otherwise the number of bytes taken), or, when
the peer of the connection has gone, it raises `SIGPIPE`. Line 45 passes flags
`0` and the program never ignores or handles the signal, so `SIGPIPE`
terminates the process inside the call. -/
inductive SendOutcome where
  | ret (n : Int)
  | sigpipe
deriving DecidableEq, Repr

/-- One `send` call and its outcome. -/
structure SendCall where
  fd : Int
  buffer : List Nat
  outcome : SendOutcome
deriving DecidableEq, Repr

/-- The state of one process: the global `destClients` list and the logs of
what the process did to the outside world. `broadcasts` records the argument
of every `broadcastToDestClients` call. -/
structure World where
  destClients : List DestClient
  sends : List SendCall
  closes : List Int
  broadcasts : List (List Nat)
  cerr : List String
deriving DecidableEq, Repr

/-- The outcome of `send` as the kernel decides it: the number of `send` calls
the process has made before, the descriptor and the buffer in, the outcome
out. The first argument lets the same descriptor and bytes be answered
differently at different times. -/
abbrev SendFn := Nat → Int → List Nat → SendOutcome

/-- The body of `addDestClient`: `destClients.push_back({fd})`. -/
def addDestClient (fd : Int) (w : World) : World :=
  { w with destClients := w.destClients ++ [⟨fd⟩] }

/-- The traversal made by `std::list::remove_if` with the lambda of
`removeDestClient`: the predicate runs once on every element, first calling
`close(client.fd)` and then answering `client.fd == fd`. Returns the elements
kept and the `close` log. -/
def removeIfLoop (fd : Int) : List DestClient → List Int → List DestClient × List Int
  | [], closes => ([], closes)
  | client :: rest, closes =>
    let closes1 := closes ++ [client.fd]
    if client.fd = fd then
      removeIfLoop fd rest closes1
    else
      let r := removeIfLoop fd rest closes1
      (client :: r.1, r.2)

/-- The function `removeDestClient(fd)`. -/
def removeDestClient (fd : Int) (w : World) : World :=
  let r := removeIfLoop fd w.destClients w.closes
  { w with destClients := r.1, closes := r.2 }

/-- The `for` loop of `broadcastToDestClients` from iterator position `it`
(the list argument is the part of `destClients` from `it` on). Returns that
part as the loop leaves it, the `send` and `close` logs, and whether a `send`
raised `SIGPIPE`; the process then stops inside that call, with the rest of
the list untouched. -/
def broadcastLoop (send : SendFn) (buffer : List Nat) :
    List DestClient → List SendCall → List Int →
      List DestClient × List SendCall × List Int × Bool
  | [], sends, closes => ([], sends, closes, false)
  | it :: rest, sends, closes =>
    match send sends.length it.fd buffer with
    | .sigpipe => (it :: rest, sends ++ [⟨it.fd, buffer, .sigpipe⟩], closes, true)
    | .ret sent =>
      let sends1 := sends ++ [⟨it.fd, buffer, .ret sent⟩]
      if sent ≤ 0 then
        let fd := it.fd
        broadcastLoop send buffer rest sends1 (closes ++ [fd])
      else
        let r := broadcastLoop send buffer rest sends1 closes
        (it :: r.1, r.2.1, r.2.2.1, r.2.2.2)

/-- The function `broadcastToDestClients(buffer)`: the process state
afterwards, and whether the process was terminated by `SIGPIPE` inside the
call. -/
def broadcastToDestClients (send : SendFn) (buffer : List Nat) (w : World) : World × Bool :=
  let r := broadcastLoop send buffer w.destClients w.sends w.closes
  ({ w with destClients := r.1, sends := r.2.1, closes := r.2.2.1,
            broadcasts := w.broadcasts ++ [buffer] }, r.2.2.2)

/-- The bytes a `send` call put on the wire: the first `n` bytes of its buffer
when it returned a positive `n`, nothing otherwise. -/
def SendCall.wire (c : SendCall) : List Nat :=
  match c.outcome with
  | .ret n => if 0 < n then c.buffer.take n.toNat else []
  | .sigpipe => []

/-! ## Source connection and `recv` -/

/-- What the network hands to the reading side of the source connection: a
run of bytes, or an error. The end of the list is the peer's orderly close. -/
inductive Arrival where
  | data (bytes : List Nat)
  | error
deriving DecidableEq, Repr

/-- The source connection: the arrivals not yet consumed. -/
abbrev Conn := List Arrival

/-- The bytes the connection still delivers before it closes or errors. -/
def connData : Conn → List Nat
  | [] => []
  | .error :: _ => []
  | .data bytes :: rest => bytes ++ connData rest

/-- A blocking `recv(sock, p, want, 0)`: returns the `ssize_t` result, the
bytes stored at `p`, and the connection afterwards. An arrival longer than
`want` is split; an empty arrival delivers nothing and the call keeps waiting. -/
def recv : Conn → Nat → Int × List Nat × Conn
  | [], _ => (0, [], [])
  | .error :: rest, _ => (-1, [], rest)
  | .data bytes :: rest, want =>
    if bytes.length = 0 then recv rest want
    else if bytes.length ≤ want then ((bytes.length : Int), bytes, rest)
    else ((want : Int), bytes.take want, .data (bytes.drop want) :: rest)

/-- Storing `bytes` at `buf + off`. -/
def writeAt (buf : List Nat) (off : Nat) (bytes : List Nat) : List Nat :=
  buf.take off ++ bytes ++ buf.drop (off + bytes.length)

/-- The `while (total < len)` loop of `readFull`, one `recv` per unit of fuel.
`none` only when the fuel runs out. -/
def readFullLoop (sock : Conn) (buf : List Nat) (total len : Nat) :
    Nat → Option (Int × List Nat × Conn)
  | 0 => if total < len then none else some (0, buf, sock)
  | fuel + 1 =>
    if total < len then
      let r := recv sock (len - total)
      let n := r.1
      if n ≤ 0 then some (-1, buf, r.2.2)
      else readFullLoop r.2.2 (writeAt buf total r.2.1) (total + n.toNat) len fuel
    else some (0, buf, sock)

/-- The function `readFull(sock, buf, len)`: result code, buffer afterwards,
connection afterwards. Every successful `recv` stores at least one byte, so
`len` units of fuel are enough (`readFull_total`). -/
def readFull (sock : Conn) (buf : List Nat) (len : Nat) : Option (Int × List Nat × Conn) :=
  readFullLoop sock buf 0 len len

/-! ## Source session (lines 90-115) -/

/-- The two bytes copied by `std::memcpy(&len, &header[2], 2)` read as a
`uint16_t` on a little-endian host. -/
def memcpy16 (b0 b1 : Nat) : Nat := (b0 % 256) + 256 * (b1 % 256)

/-- The byte swap `ntohs` of a little-endian host. -/
def ntohs (x : Nat) : Nat := (x % 256) * 256 + (x / 256) % 256

/-- The header test of `handleSource` (lines 96-97). -/
def headerInvalid (header : List Nat) : Bool :=
  header.getD 0 0 != MAGIC_BYTE || header.getD 1 0 != 0x00 ||
  header.getD 4 0 != 0x00 || header.getD 5 0 != 0x00 ||
  header.getD 6 0 != 0x00 || header.getD 7 0 != 0x00

/-- How the `while (true)` loop of `handleSource` ended: by one of its three
`break`s, or by the process being terminated by `SIGPIPE` inside
`broadcastToDestClients`. -/
inductive LoopExit where
  | headerRead
  | invalidHeader
  | payloadRead
  | killed
deriving DecidableEq, Repr

/-- The result of a source session: the connection as the session left it,
the process state, and how the loop ended. -/
structure Session where
  sock : Conn
  world : World
  exit : LoopExit
deriving DecidableEq, Repr

/-- The `while (true)` loop of `handleSource`, one iteration per unit of fuel.
`none` only when the fuel runs out. -/
def handleSourceLoop (send : SendFn) :
    Nat → Conn → List Nat → World → Option Session
  | 0, _, _, _ => none
  | fuel + 1, sock, header, w =>
    match readFull sock header HEADER_SIZE with
    | none => none
    | some (rc, header1, sock1) =>
      if rc < 0 then some ⟨sock1, w, .headerRead⟩
      else if headerInvalid header1 then
        some ⟨sock1, { w with cerr := w.cerr ++ ["Invalid header, dropping message\n"] },
          .invalidHeader⟩
      else
        let len := ntohs (memcpy16 (header1.getD 2 0) (header1.getD 3 0))
        let payload0 := List.replicate (HEADER_SIZE + len) 0
        let payload1 := writeAt payload0 0 (header1.take HEADER_SIZE)
        match readFull sock1 (payload1.drop HEADER_SIZE) len with
        | none => none
        | some (rc2, region, sock2) =>
          if rc2 < 0 then some ⟨sock2, w, .payloadRead⟩
          else
            let payload := payload1.take HEADER_SIZE ++ region
            let b := broadcastToDestClients send payload w
            if b.2 then some ⟨sock2, b.1, .killed⟩
            else handleSourceLoop send fuel sock2 header1 b.1

/-- The function `handleSource(sourceFd)` run on the connection `sock`: the
loop, then `close(sourceFd)`, which a process terminated by `SIGPIPE` never
reaches. The `header` array starts as zeros (each byte is overwritten before
it is read). Each completed iteration consumes at least `HEADER_SIZE` bytes, so
one unit of fuel per byte of the connection, plus one, is enough
(`handleSource_total`). -/
def handleSource (send : SendFn) (sourceFd : Int) (sock : Conn) (w : World) : Option Session :=
  match handleSourceLoop send ((connData sock).length + 1) sock
      (List.replicate HEADER_SIZE 0) w with
  | none => none
  | some r =>
    match r.exit with
    | .killed => some r
    | _ => some { r with world := { r.world with closes := r.world.closes ++ [sourceFd] } }

/-- The claims' notion of a valid frame: magic `0xCC`, options `0x00`, two
length bytes, four zero reserved bytes, then exactly `256 * h2 + h3` payload
bytes. -/
def validFrame (f : List Nat) : Bool :=
  decide (8 ≤ f.length) && f.getD 0 0 == 0xCC && f.getD 1 0 == 0x00 &&
  decide (f.getD 2 0 < 256) && decide (f.getD 3 0 < 256) &&
  f.getD 4 0 == 0x00 && f.getD 5 0 == 0x00 && f.getD 6 0 == 0x00 && f.getD 7 0 == 0x00 &&
  f.length == 8 + (256 * f.getD 2 0 + f.getD 3 0)

/-! ## Connection multiplexer (`main`, lines 117-162) -/

/-- The event bit `POLLIN` of `<poll.h>` (Linux value). -/
def POLLIN : Nat := 0x001

/-- The event bit `POLLOUT` of `<poll.h>` (Linux value). -/
def POLLOUT : Nat := 0x004

/-- The fields of `struct pollfd` that `main` writes. -/
structure PollFd where
  fd : Int
  events : Nat
deriving DecidableEq, Repr

/-- The result of filling the readiness array: `nfds`, the array, and the
indices of `fds` that were assigned, in order. -/
structure Fill where
  nfds : Nat
  fds : List PollFd
  writes : List Nat
deriving DecidableEq, Repr

/-- The `for (const auto &client : destClients)` loop of lines 129-132. -/
def fillLoop : List DestClient → Fill → Fill
  | [], f => f
  | client :: rest, f =>
    if f.nfds ≥ MAX_CLIENTS + 2 then f
    else fillLoop rest
      ⟨f.nfds + 1, f.fds.set f.nfds ⟨client.fd, POLLOUT⟩, f.writes ++ [f.nfds]⟩

/-- Lines 125-132: `nfds = 0`, the two listener entries, then one entry per
registered destination. -/
def fillFds (srcListener dstListener : Int) (destClients : List DestClient)
    (fds : List PollFd) : Fill :=
  let f0 : Fill := ⟨0, fds, []⟩
  let f1 : Fill := ⟨f0.nfds + 1, f0.fds.set f0.nfds ⟨srcListener, POLLIN⟩, f0.writes ++ [f0.nfds]⟩
  let f2 : Fill := ⟨f1.nfds + 1, f1.fds.set f1.nfds ⟨dstListener, POLLIN⟩, f1.writes ++ [f1.nfds]⟩
  fillLoop destClients f2

/-- What the operating system answers during one iteration of the loop of
`main`: the `POLLIN` bits of the two listeners after `poll`, and the results
of `accept` and `fork` should the iteration call them (`forked` is false when
`fork` fails and no child exists). -/
structure Ready where
  srcIn : Bool
  srcAccept : Int
  forked : Bool
  dstIn : Bool
  dstAccept : Int
deriving DecidableEq, Repr

/-- A child process created by `fork()` at line 140. It starts with a copy of
the parent's memory, so `world.destClients` is the parent's list at the moment
of the fork; it then runs lines 141-144 on its own copy. -/
structure Child where
  sourceFd : Int
  world : World
deriving DecidableEq, Repr

/-- The parent process at the head of the `while (true)` loop of `main`, with
the children it has forked so far (the parent never waits for them). -/
structure MainState where
  sourceFd : Int
  fds : List PollFd
  world : World
  children : List Child
  cout : List String
deriving DecidableEq, Repr

/-- The state in which `main` enters its loop. -/
def mainInit : MainState :=
  ⟨-1, List.replicate (MAX_CLIENTS + 2) ⟨0, 0⟩, ⟨[], [], [], [], []⟩, [], []⟩

/-- One iteration of the loop of `main` in the parent process (lines 125-158). -/
def mainIter (srcListener dstListener : Int) (r : Ready) (s : MainState) : MainState :=
  let fill := fillFds srcListener dstListener s.world.destClients s.fds
  let s0 : MainState := { s with fds := fill.fds }
  let s1 : MainState :=
    if r.srcIn ∧ s0.sourceFd < 0 then
      let sourceFd := r.srcAccept
      if sourceFd ≥ 0 then
        let cout1 := s0.cout ++ ["Source client connected\n"]
        let child : Child :=
          ⟨sourceFd, { s0.world with sends := [], closes := [srcListener, dstListener],
                                     broadcasts := [], cerr := [] }⟩
        { s0 with sourceFd := -1,
                  world := { s0.world with closes := s0.world.closes ++ [sourceFd] },
                  children := if r.forked then s0.children ++ [child] else s0.children,
                  cout := cout1 }
      else { s0 with sourceFd := sourceFd }
    else s0
  if r.dstIn then
    let newFd := r.dstAccept
    if newFd ≥ 0 then
      { s1 with world := addDestClient newFd s1.world,
                cout := s1.cout ++ ["New destination client connected\n"] }
    else s1
  else s1

/-- Successive iterations of the loop of `main`, one per element of the list. -/
def mainLoop (srcListener dstListener : Int) : List Ready → MainState → MainState
  | [], s => s
  | r :: rest, s => mainLoop srcListener dstListener rest (mainIter srcListener dstListener r s)

/-- Lines 141-143 in a child: the source session the child runs when its
producer's connection behaves as `sock`. -/
def childRun (send : SendFn) (sock : Conn) (c : Child) : Option Session :=
  handleSource send c.sourceFd sock c.world

/-! ## Vocabulary of the claims -/

/-- The eight header bytes of a frame whose length bytes are `h2`, `h3`. -/
def frameHeader (h2 h3 : Nat) : List Nat := [0xCC, 0x00, h2, h3, 0x00, 0x00, 0x00, 0x00]

/-- Calling `broadcastToDestClients` on each buffer of a list, in order, as
long as the process lives: the state afterwards, and whether the process was
terminated by `SIGPIPE` on the way. -/
def broadcastEach (send : SendFn) : List (List Nat) → World → World × Bool
  | [], w => (w, false)
  | f :: rest, w =>
    let b := broadcastToDestClients send f w
    if b.2 then b else broadcastEach send rest b.1

/-- What the kernel answers to one `send` of `buffer` per registry entry, in
registry order, the first of them being the `n`-th `send` of the process. -/
def sendOutcomes (send : SendFn) (buffer : List Nat) : Nat → List DestClient → List SendOutcome
  | _, [] => []
  | n, c :: rest => send n c.fd buffer :: sendOutcomes send buffer (n + 1) rest

/-! ## Concrete scenarios -/

/-- The 13-byte frame with payload "hello". -/
def helloFrame : List Nat := frameHeader 0 5 ++ [104, 101, 108, 108, 111]

/-- An empty process state with the given registry. -/
def worldOf (destClients : List DestClient) : World := ⟨destClients, [], [], [], []⟩

/-- Every `send` to destination 5 fails with -1; every other `send` takes the
whole buffer. -/
def sendClosed5 : SendFn :=
  fun _ fd buffer => if fd = 5 then .ret (-1) else .ret (buffer.length : Int)

/-- Every `send` takes only five bytes. -/
def sendFive : SendFn := fun _ _ _ => .ret 5

/-- Every `send` to destination 5 takes only five bytes; every other `send`
takes the whole buffer. -/
def sendShort5 : SendFn :=
  fun _ fd buffer => if fd = 5 then .ret 5 else .ret (buffer.length : Int)

/-- Every `send` takes the whole buffer. -/
def sendAll : SendFn := fun _ _ buffer => .ret (buffer.length : Int)

/-- The peer of destination 5 has gone: a `send` to it raises `SIGPIPE`; every
other `send` takes the whole buffer. -/
def sendPipe5 : SendFn :=
  fun _ fd buffer => if fd = 5 then .sigpipe else .ret (buffer.length : Int)

/-- A consumer whose peer closes after the first frame: the first `send` of
the process is taken whole, every later one raises `SIGPIPE`. -/
def sendThenPipe : SendFn :=
  fun n _ buffer => if n = 0 then .ret (buffer.length : Int) else .sigpipe

/-- A loop iteration in which a producer connects (descriptor 7) and `fork` succeeds. -/
def sourceArrives : Ready := ⟨true, 7, true, false, 0⟩

/-- A loop iteration in which a consumer connects (descriptor 8). -/
def destArrives : Ready := ⟨false, 0, false, true, 8⟩

/-- The "hello" frame arriving in three pieces, the second one empty. -/
def helloConn : Conn :=
  [.data [0xCC, 0, 0], .data [], .data [5, 0, 0, 0, 0, 104, 101, 108, 108, 111]]

/-- A header with magic `0xAB`, followed by two more bytes. -/
def badMagicConn : Conn := [.data [0xAB, 0, 0, 1, 0, 0, 0, 0, 7, 0xCC]]

/-- A header announcing 5 payload bytes, two of them, then an error. -/
def truncatedConn : Conn :=
  [.data [0xCC, 0, 0, 5, 0, 0, 0, 0, 104], .data [101], .error, .data [108]]

/-- Three "hello" frames followed by the peer's close. -/
def threeFramesConn : Conn := [.data (helloFrame ++ helloFrame), .data helloFrame]

/-! ## Registry lemmas -/

theorem sendOutcomes_length (send : SendFn) (buffer : List Nat) (l : List DestClient) :
    ∀ n, (sendOutcomes send buffer n l).length = l.length := by
  induction l with
  | nil => intro n; rfl
  | cons c rest ih => intro n; simp [sendOutcomes, ih]

/-- The loop when every `send` returns: one `send` per entry in order; the
entries whose `send` returned a value `≤ 0` are erased and closed, the others
kept, in order. -/
theorem broadcastLoop_returns (send : SendFn) (buffer : List Nat) :
    ∀ (l : List DestClient) (rets : List Int) (sends : List SendCall) (closes : List Int),
      sendOutcomes send buffer sends.length l = rets.map SendOutcome.ret →
      broadcastLoop send buffer l sends closes =
        (((l.zip rets).filter (fun p => decide (¬ p.2 ≤ 0))).map Prod.fst,
         sends ++ (l.zip rets).map (fun p => ⟨p.1.fd, buffer, .ret p.2⟩),
         closes ++ ((l.zip rets).filter (fun p => decide (p.2 ≤ 0))).map (fun p => p.1.fd),
         false) := by
  intro l
  induction l with
  | nil => intro rets sends closes _; simp [broadcastLoop]
  | cons c rest ih =>
    intro rets sends closes h
    cases rets with
    | nil => simp [sendOutcomes] at h
    | cons r rs =>
      simp only [sendOutcomes, List.map_cons, List.cons.injEq] at h
      have hrest := ih rs (sends ++ [⟨c.fd, buffer, .ret r⟩])
      simp only [List.length_append, List.length_singleton] at hrest
      by_cases hr : r ≤ 0
      · simp [broadcastLoop, h.1, hr, hrest (closes ++ [c.fd]) h.2]
      · have hpos : 0 < r := by omega
        simp [broadcastLoop, h.1, hr, hpos, hrest closes h.2]

theorem broadcast_broadcasts (send : SendFn) (buffer : List Nat) (w : World) :
    (broadcastToDestClients send buffer w).1.broadcasts = w.broadcasts ++ [buffer] := rfl

theorem removeIfLoop_kept (fd : Int) (l : List DestClient) (closes : List Int) :
    (removeIfLoop fd l closes).1 = l.filter (fun c => decide (c.fd ≠ fd)) := by
  induction l generalizing closes with
  | nil => simp [removeIfLoop]
  | cons c rest ih =>
    by_cases h : c.fd = fd
    · simp [removeIfLoop, h, ih]
    · simp [removeIfLoop, h, ih]

theorem removeIfLoop_closes (fd : Int) (l : List DestClient) (closes : List Int) :
    (removeIfLoop fd l closes).2 = closes ++ l.map (fun c => c.fd) := by
  induction l generalizing closes with
  | nil => simp [removeIfLoop]
  | cons c rest ih =>
    by_cases h : c.fd = fd
    · simp [removeIfLoop, h, ih]
    · simp [removeIfLoop, h, ih]

/-! ## Readiness-array lemmas -/

theorem fillLoop_spec (l : List DestClient) (f : Fill) (h : f.nfds ≤ MAX_CLIENTS + 2) :
    (fillLoop l f).nfds = min (f.nfds + l.length) (MAX_CLIENTS + 2) ∧
    (fillLoop l f).writes =
      f.writes ++ List.range' f.nfds (min (f.nfds + l.length) (MAX_CLIENTS + 2) - f.nfds) ∧
    (fillLoop l f).fds.length = f.fds.length := by
  induction l generalizing f with
  | nil => simp [fillLoop, Nat.min_eq_left h]
  | cons c rest ih =>
    by_cases hfull : f.nfds ≥ MAX_CLIENTS + 2
    · have : f.nfds = MAX_CLIENTS + 2 := by omega
      simp [fillLoop, hfull, this]
    · have hlt : f.nfds < MAX_CLIENTS + 2 := by omega
      have ih' := ih ⟨f.nfds + 1, f.fds.set f.nfds ⟨c.fd, POLLOUT⟩, f.writes ++ [f.nfds]⟩
        (by show f.nfds + 1 ≤ MAX_CLIENTS + 2; omega)
      simp only [fillLoop, hfull, if_false, List.length_cons]
      refine ⟨?_, ?_, ?_⟩
      · rw [ih'.1]; simp only; congr 1; omega
      · rw [ih'.2.1]
        simp only [List.append_assoc, List.singleton_append]
        have e : min (f.nfds + (rest.length + 1)) (MAX_CLIENTS + 2) - f.nfds =
            (min (f.nfds + 1 + rest.length) (MAX_CLIENTS + 2) - (f.nfds + 1)) + 1 := by
          simp only [MAX_CLIENTS] at hlt ⊢; omega
        rw [e, List.range'_succ]
      · rw [ih'.2.2]; simp

/-! ## `recv` and `readFull` lemmas -/

theorem recv_closed (sock : Conn) (want : Nat) (h : connData sock = []) :
    (recv sock want).1 ≤ 0 := by
  induction sock with
  | nil => simp [recv]
  | cons a rest ih =>
    cases a with
    | error => simp [recv]
    | data bytes =>
      simp only [connData, List.append_eq_nil] at h
      simp [recv, h.1, ih h.2]

theorem recv_data (sock : Conn) (want : Nat) (hw : 0 < want) (h : connData sock ≠ []) :
    0 < (recv sock want).2.1.length ∧ (recv sock want).2.1.length ≤ want ∧
    (recv sock want).1 = ((recv sock want).2.1.length : Int) ∧
    connData sock = (recv sock want).2.1 ++ connData (recv sock want).2.2 := by
  induction sock with
  | nil => simp [connData] at h
  | cons a rest ih =>
    cases a with
    | error => simp [connData] at h
    | data bytes =>
      by_cases h0 : bytes.length = 0
      · have hb : bytes = [] := List.length_eq_zero.mp h0
        have hr : connData rest ≠ [] := by simpa [connData, hb] using h
        simpa [recv, h0, connData, hb] using ih hr
      · by_cases hle : bytes.length ≤ want
        · simp only [recv, h0, hle, if_true, if_false, connData]
          simp only [and_self, and_true, true_and]
          omega
        · simp only [recv, h0, hle, if_false, connData, List.length_take]
          refine ⟨by omega, by omega, ?_, ?_⟩
          · congr 1; omega
          · rw [← List.append_assoc, List.take_append_drop]

theorem writeAt_extend (written tail bytes : List Nat) :
    writeAt (written ++ tail) written.length bytes =
      (written ++ bytes) ++ tail.drop bytes.length := by
  simp [writeAt, List.take_append_eq_append_take, List.drop_append_eq_append_drop,
    List.drop_eq_nil_of_le]

theorem split_common_front (data post bytes more : List Nat)
    (h : data ++ post = bytes ++ more) (hle : bytes.length ≤ data.length) :
    data = bytes ++ data.drop bytes.length ∧ more = data.drop bytes.length ++ post := by
  have h1 : bytes = data.take bytes.length := by
    have := congrArg (List.take bytes.length) h
    simpa [List.take_append_eq_append_take, Nat.sub_eq_zero_of_le hle] using this.symm
  have h2 : more = data.drop bytes.length ++ post := by
    have := congrArg (List.drop bytes.length) h
    simpa [List.drop_append_eq_append_drop, Nat.sub_eq_zero_of_le hle] using this.symm
  refine ⟨?_, h2⟩
  conv_lhs => rw [← List.take_append_drop bytes.length data]
  rw [← h1]

/-- A read succeeds when the connection still delivers the bytes asked for:
the buffer receives exactly those bytes and the connection keeps the rest. -/
theorem readFullLoop_ok (len : Nat) :
    ∀ (fuel : Nat) (sock : Conn) (written tail : List Nat) (data post : List Nat),
      written.length ≤ len → len - written.length ≤ fuel →
      connData sock = data ++ post → data.length = len - written.length →
      ∃ sock1, readFullLoop sock (written ++ tail) written.length len fuel =
          some (0, written ++ data ++ tail.drop data.length, sock1) ∧
        connData sock1 = post := by
  intro fuel
  induction fuel with
  | zero =>
    intro sock written tail data post hle hfuel hsock hdata
    have hd : data = [] := List.length_eq_zero.mp (by omega)
    have hnot : ¬ written.length < len := by omega
    exact ⟨sock, by simp [readFullLoop, hnot, hd], by simpa [hd] using hsock⟩
  | succ fuel ih =>
    intro sock written tail data post hle hfuel hsock hdata
    by_cases hlt : written.length < len
    · have hne : connData sock ≠ [] := by
        intro h0
        rw [h0] at hsock
        have := congrArg List.length hsock
        simp at this; omega
      obtain ⟨hpos, hwant, hn, hsplit⟩ := recv_data sock (len - written.length) (by omega) hne
      have hcommon := split_common_front data post _ _ (hsock.symm.trans hsplit) (by omega)
      have hnpos : ¬ (recv sock (len - written.length)).1 ≤ 0 := by rw [hn]; omega
      have hnat : (recv sock (len - written.length)).1.toNat =
          (recv sock (len - written.length)).2.1.length := by rw [hn]; simp
      obtain ⟨sock1, hrun, hrest⟩ := ih (recv sock (len - written.length)).2.2
        (written ++ (recv sock (len - written.length)).2.1)
        (tail.drop (recv sock (len - written.length)).2.1.length)
        (data.drop (recv sock (len - written.length)).2.1.length) post
        (by simp; omega) (by simp; omega) hcommon.2 (by simp; omega)
      refine ⟨sock1, ?_, hrest⟩
      simp only [readFullLoop, hlt, if_true, hnpos, if_false, hnat, writeAt_extend]
      rw [List.length_append] at hrun
      rw [hrun]
      congr 2
      conv_rhs => rw [hcommon.1]
      simp only [List.append_assoc, List.drop_drop, List.length_append, List.length_drop]
    · have hd : data = [] := List.length_eq_zero.mp (by omega)
      exact ⟨sock, by simp [readFullLoop, hlt, hd], by simpa [hd] using hsock⟩

/-- A read fails when the connection closes or errors before delivering the
bytes asked for. -/
theorem readFullLoop_short (len : Nat) :
    ∀ (fuel : Nat) (sock : Conn) (buf : List Nat) (total : Nat),
      len - total ≤ fuel → (connData sock).length < len - total →
      ∃ buf1 sock1, readFullLoop sock buf total len fuel = some (-1, buf1, sock1) := by
  intro fuel
  induction fuel with
  | zero => intro sock buf total hfuel hshort; omega
  | succ fuel ih =>
    intro sock buf total hfuel hshort
    have hlt : total < len := by omega
    by_cases hnil : connData sock = []
    · have := recv_closed sock (len - total) hnil
      exact ⟨buf, (recv sock (len - total)).2.2, by simp [readFullLoop, hlt, this]⟩
    · obtain ⟨hpos, hwant, hn, hsplit⟩ := recv_data sock (len - total) (by omega) hnil
      have hnpos : ¬ (recv sock (len - total)).1 ≤ 0 := by rw [hn]; omega
      have hnat : (recv sock (len - total)).1.toNat = (recv sock (len - total)).2.1.length := by
        rw [hn]; simp
      have hlen := congrArg List.length hsplit
      rw [List.length_append] at hlen
      obtain ⟨buf1, sock1, hrun⟩ := ih (recv sock (len - total)).2.2
        (writeAt buf total (recv sock (len - total)).2.1)
        (total + (recv sock (len - total)).2.1.length) (by omega) (by omega)
      exact ⟨buf1, sock1, by simp only [readFullLoop, hlt, if_true, hnpos, if_false, hnat, hrun]⟩

theorem readFull_ok (sock : Conn) (buf data post : List Nat)
    (hsock : connData sock = data ++ post) :
    ∃ sock1, readFull sock buf data.length = some (0, data ++ buf.drop data.length, sock1) ∧
      connData sock1 = post := by
  have := readFullLoop_ok data.length data.length sock [] buf data post
    (by simp) (by simp) hsock (by simp)
  simpa [readFull] using this

theorem readFull_short (sock : Conn) (buf : List Nat) (len : Nat)
    (hshort : (connData sock).length < len) :
    ∃ buf1 sock1, readFull sock buf len = some (-1, buf1, sock1) := by
  simpa [readFull] using readFullLoop_short len len sock buf 0 (by omega) (by omega)

/-- The read `readFull(sock, buf, len)` always returns: `len` units of fuel are enough. -/
theorem readFull_total (sock : Conn) (buf : List Nat) (len : Nat) :
    ∃ r, readFull sock buf len = some r := by
  by_cases h : (connData sock).length < len
  · obtain ⟨b, s, hr⟩ := readFull_short sock buf len h
    exact ⟨_, hr⟩
  · have hsplit : connData sock = (connData sock).take len ++ (connData sock).drop len :=
      (List.take_append_drop _ _).symm
    obtain ⟨s, hr, -⟩ := readFull_ok sock buf _ _ hsplit
    have hl : ((connData sock).take len).length = len := by simp; omega
    rw [hl] at hr
    exact ⟨_, hr⟩

theorem readFull_cases (sock : Conn) (buf : List Nat) (len : Nat) :
    (len ≤ (connData sock).length ∧
      ∃ sock1, readFull sock buf len =
          some (0, (connData sock).take len ++ buf.drop len, sock1) ∧
        connData sock1 = (connData sock).drop len) ∨
    ((connData sock).length < len ∧
      ∃ buf1 sock1, readFull sock buf len = some (-1, buf1, sock1)) := by
  by_cases h : (connData sock).length < len
  · exact Or.inr ⟨h, readFull_short sock buf len h⟩
  · refine Or.inl ⟨by omega, ?_⟩
    have hsplit : connData sock = (connData sock).take len ++ (connData sock).drop len :=
      (List.take_append_drop _ _).symm
    obtain ⟨s, hr, hs⟩ := readFull_ok sock buf _ _ hsplit
    have hl : ((connData sock).take len).length = len := by simp; omega
    rw [hl] at hr
    exact ⟨s, hr, hs⟩

/-! ## Session lemmas -/

theorem ntohs_memcpy16 (h2 h3 : Nat) (a : h2 < 256) (b : h3 < 256) :
    ntohs (memcpy16 h2 h3) = 256 * h2 + h3 := by
  unfold ntohs memcpy16; omega

theorem validFrame_shape (f : List Nat) (h : validFrame f = true) :
    ∃ h2 h3 payload, h2 < 256 ∧ h3 < 256 ∧ payload.length = 256 * h2 + h3 ∧
      f = frameHeader h2 h3 ++ payload := by
  rcases f with _ | ⟨a, _ | ⟨b, _ | ⟨c, _ | ⟨d, _ | ⟨e, _ | ⟨g, _ | ⟨i, _ | ⟨j, payload⟩⟩⟩⟩⟩⟩⟩⟩ <;>
    simp [validFrame] at h
  obtain ⟨⟨⟨⟨⟨⟨⟨⟨ha, hb⟩, hc⟩, hd⟩, he⟩, hg⟩, hi⟩, hj⟩, hlen⟩ := h
  subst ha hb he hg hi hj
  exact ⟨c, d, payload, hc, hd, by omega, rfl⟩

theorem validFrame_of_shape (h2 h3 : Nat) (payload : List Nat) (a : h2 < 256) (b : h3 < 256)
    (hp : payload.length = 256 * h2 + h3) : validFrame (frameHeader h2 h3 ++ payload) = true := by
  simp [validFrame, frameHeader, a, b, hp]
  omega

/-- One loop iteration on a valid frame: the frame is handed to
`broadcastToDestClients`; if the process survives the call the loop goes on
with the connection holding exactly what followed the frame. -/
theorem handleSourceLoop_frame (send : SendFn) (sock : Conn)
    (header : List Nat) (h2 h3 : Nat) (payload rest : List Nat)
    (hh : header.length = 8) (a : h2 < 256) (b : h3 < 256)
    (hp : payload.length = 256 * h2 + h3)
    (hs : connData sock = (frameHeader h2 h3 ++ payload) ++ rest) :
    ∃ sock2, connData sock2 = rest ∧ ∀ (fuel : Nat) (w : World),
      handleSourceLoop send (fuel + 1) sock header w =
        if (broadcastToDestClients send (frameHeader h2 h3 ++ payload) w).2 = true then
          some ⟨sock2, (broadcastToDestClients send (frameHeader h2 h3 ++ payload) w).1, .killed⟩
        else
          handleSourceLoop send fuel sock2 (frameHeader h2 h3)
            (broadcastToDestClients send (frameHeader h2 h3 ++ payload) w).1 := by
  rw [List.append_assoc] at hs
  obtain ⟨sock1, hr1, hs1⟩ := readFull_ok sock header (frameHeader h2 h3) (payload ++ rest) hs
  have hdrop : header.drop 8 = [] := List.drop_eq_nil_of_le (by omega)
  have hlen : ntohs (memcpy16 h2 h3) = payload.length := by rw [ntohs_memcpy16 h2 h3 a b, hp]
  obtain ⟨sock2, hr2, hs2⟩ := readFull_ok sock1 (List.replicate payload.length 0) payload rest hs1
  refine ⟨sock2, hs2, fun fuel w => ?_⟩
  simp only [frameHeader, List.length_cons, List.length_nil] at hr1
  simp only [Nat.zero_add, Nat.reduceAdd, hdrop, List.append_nil] at hr1
  simp only [List.drop_replicate, Nat.sub_self, List.replicate_zero, List.append_nil] at hr2
  simp only [handleSourceLoop, HEADER_SIZE, hr1]
  simp [headerInvalid, MAGIC_BYTE, writeAt, frameHeader, hlen, hr2]

/-- One loop iteration on a header that fails the test of lines 96-97: the
loop is left after the eight header bytes, with only the message on `cerr`. -/
theorem handleSourceLoop_invalid (send : SendFn) (sock : Conn)
    (header : List Nat) (hdr rest : List Nat)
    (hh : header.length = 8) (hl : hdr.length = 8) (hbad : headerInvalid hdr = true)
    (hs : connData sock = hdr ++ rest) :
    ∃ sock1, readFull sock header HEADER_SIZE = some (0, hdr, sock1) ∧
      connData sock1 = rest ∧ ∀ (fuel : Nat) (w : World),
      handleSourceLoop send (fuel + 1) sock header w =
        some ⟨sock1, { w with cerr := w.cerr ++ ["Invalid header, dropping message\n"] },
          .invalidHeader⟩ := by
  obtain ⟨sock1, hr1, hs1⟩ := readFull_ok sock header hdr rest hs
  have hdrop : header.drop 8 = [] := List.drop_eq_nil_of_le (by omega)
  rw [hl, hdrop, List.append_nil] at hr1
  have hr1h : readFull sock header HEADER_SIZE = some (0, hdr, sock1) := hr1
  refine ⟨sock1, hr1h, hs1, fun fuel w => ?_⟩
  simp only [handleSourceLoop, hr1h]
  simp [hbad]

/-- One loop iteration on a connection that ends before a whole header. -/
theorem handleSourceLoop_no_header (send : SendFn) (sock : Conn)
    (header : List Nat) (hs : (connData sock).length < 8) :
    ∃ sock1, ∀ (fuel : Nat) (w : World),
      handleSourceLoop send (fuel + 1) sock header w = some ⟨sock1, w, .headerRead⟩ := by
  obtain ⟨buf1, sock1, hr1⟩ := readFull_short sock header 8 hs
  refine ⟨sock1, fun fuel w => ?_⟩
  simp only [handleSourceLoop, HEADER_SIZE, hr1]
  simp

/-- One loop iteration on a valid header followed by too few payload bytes. -/
theorem handleSourceLoop_short_payload (send : SendFn) (sock : Conn)
    (header : List Nat) (h2 h3 : Nat) (part : List Nat)
    (hh : header.length = 8) (a : h2 < 256) (b : h3 < 256)
    (hp : part.length < 256 * h2 + h3)
    (hs : connData sock = frameHeader h2 h3 ++ part) :
    ∃ sock2, ∀ (fuel : Nat) (w : World),
      handleSourceLoop send (fuel + 1) sock header w = some ⟨sock2, w, .payloadRead⟩ := by
  obtain ⟨sock1, hr1, hs1⟩ := readFull_ok sock header (frameHeader h2 h3) part hs
  have hdrop : header.drop 8 = [] := List.drop_eq_nil_of_le (by omega)
  have hlen : ntohs (memcpy16 h2 h3) = 256 * h2 + h3 := ntohs_memcpy16 h2 h3 a b
  obtain ⟨buf2, sock2, hr2⟩ := readFull_short sock1 (List.replicate (256 * h2 + h3) 0)
    (256 * h2 + h3) (by rw [hs1]; exact hp)
  refine ⟨sock2, fun fuel w => ?_⟩
  simp only [frameHeader, List.length_cons, List.length_nil] at hr1
  simp only [Nat.zero_add, Nat.reduceAdd, hdrop, List.append_nil] at hr1
  simp only [handleSourceLoop, HEADER_SIZE, hr1]
  simp [headerInvalid, MAGIC_BYTE, writeAt, frameHeader, hlen, hr2]

theorem broadcastEach_cons_alive (send : SendFn) (f : List Nat) (rest : List (List Nat))
    (w : World) (h : (broadcastEach send (f :: rest) w).2 = false) :
    (broadcastToDestClients send f w).2 = false ∧
    broadcastEach send (f :: rest) w =
      broadcastEach send rest (broadcastToDestClients send f w).1 := by
  by_cases hk : (broadcastToDestClients send f w).2 = true
  · simp [broadcastEach, hk] at h
  · simp only [Bool.not_eq_true] at hk
    exact ⟨hk, by simp [broadcastEach, hk]⟩

theorem broadcastEach_broadcasts (send : SendFn) (frames : List (List Nat)) :
    ∀ w : World, (broadcastEach send frames w).2 = false →
      (broadcastEach send frames w).1.broadcasts = w.broadcasts ++ frames := by
  induction frames with
  | nil => intro w _; simp [broadcastEach]
  | cons f rest ih =>
    intro w h
    obtain ⟨-, hstep⟩ := broadcastEach_cons_alive send f rest w h
    rw [hstep] at h ⊢
    rw [ih _ h, broadcast_broadcasts]; simp

/-- The loop on a run of valid frames whose broadcasts the process survives:
one iteration and one broadcast per frame, in order, leaving on the connection
exactly what followed the run. -/
theorem handleSourceLoop_frames (send : SendFn) :
    ∀ (frames : List (List Nat)) (sock : Conn) (header : List Nat) (rest : List Nat),
      header.length = 8 → (∀ f ∈ frames, validFrame f = true) →
      connData sock = frames.flatten ++ rest →
      ∃ sock1 header1, header1.length = 8 ∧ connData sock1 = rest ∧
        ∀ (fuel : Nat) (w : World), (broadcastEach send frames w).2 = false →
          handleSourceLoop send (fuel + frames.length) sock header w =
            handleSourceLoop send fuel sock1 header1 (broadcastEach send frames w).1 := by
  intro frames
  induction frames with
  | nil =>
    intro sock header rest hh _ hs
    exact ⟨sock, header, hh, by simpa using hs, fun _ _ _ => rfl⟩
  | cons f more ih =>
    intro sock header rest hh hv hs
    obtain ⟨h2, h3, payload, a, b, hp, hf⟩ := validFrame_shape f (hv f (by simp))
    rw [List.flatten_cons, List.append_assoc, hf] at hs
    obtain ⟨sock2, hs2, hstep⟩ := handleSourceLoop_frame send sock header
      h2 h3 payload (more.flatten ++ rest) hh a b hp hs
    obtain ⟨sock1, header1, hh1, hs1, hrun⟩ := ih sock2 (frameHeader h2 h3) rest
      (by simp [frameHeader]) (fun g hg => hv g (by simp [hg])) hs2
    refine ⟨sock1, header1, hh1, hs1, fun fuel w halive => ?_⟩
    obtain ⟨hfirst, heach⟩ := broadcastEach_cons_alive send f more w halive
    rw [heach] at halive ⊢
    rw [hf] at hfirst halive ⊢
    rw [List.length_cons, ← Nat.add_assoc, hstep, hfirst]
    simpa using hrun fuel _ halive

theorem validFrames_length_le (frames : List (List Nat))
    (hv : ∀ f ∈ frames, validFrame f = true) : 8 * frames.length ≤ frames.flatten.length := by
  induction frames with
  | nil => simp
  | cons f more ih =>
    obtain ⟨h2, h3, payload, -, -, -, hf⟩ := validFrame_shape f (hv f (by simp))
    have := ih (fun g hg => hv g (by simp [hg]))
    simp only [List.flatten_cons, List.length_append, List.length_cons, hf, frameHeader,
      List.length_nil]
    omega

theorem readFull_ne_none (sock : Conn) (buf : List Nat) (len : Nat) :
    readFull sock buf len ≠ none := by
  obtain ⟨r, hr⟩ := readFull_total sock buf len
  simp [hr]

theorem readFull_some (sock : Conn) (buf : List Nat) (len : Nat) (rc : Int)
    (region : List Nat) (sock1 : Conn) (h : readFull sock buf len = some (rc, region, sock1)) :
    rc = -1 ∨ (rc = 0 ∧ len ≤ (connData sock).length ∧
      connData sock1 = (connData sock).drop len) := by
  rcases readFull_cases sock buf len with ⟨hle, s, hr, hs⟩ | ⟨-, b, s, hr⟩
  · rw [hr] at h
    simp only [Option.some.injEq, Prod.mk.injEq] at h
    obtain ⟨h1, -, h3⟩ := h
    exact Or.inr ⟨h1.symm, hle, h3 ▸ hs⟩
  · rw [hr] at h
    simp only [Option.some.injEq, Prod.mk.injEq] at h
    exact Or.inl h.1.symm

/-- The loop always returns when it has more fuel than the connection has
bytes, and it only ever appends to the log of broadcasts. -/
theorem handleSourceLoop_total (send : SendFn) :
    ∀ (fuel : Nat) (sock : Conn) (header : List Nat) (w : World),
      (connData sock).length < fuel →
      ∀ o, handleSourceLoop send fuel sock header w = o →
      ∃ r more, o = some r ∧ r.world.broadcasts = w.broadcasts ++ more := by
  intro fuel
  induction fuel with
  | zero => intro sock header w h; omega
  | succ fuel ih =>
    intro sock header w hfuel o ho
    rw [handleSourceLoop] at ho
    split at ho
    · rename_i heq
      exact absurd heq (readFull_ne_none _ _ _)
    · rename_i rc header1 sock1 heq
      rcases readFull_some _ _ _ _ _ _ heq with hrc | ⟨hrc, hle, hs1⟩
      · subst hrc
        exact ⟨_, [], by simpa using ho.symm, by simp⟩
      · subst hrc
        simp only [lt_self_iff_false, if_false] at ho
        split at ho
        · exact ⟨_, [], ho.symm, by simp⟩
        · split at ho
          · rename_i heq2
            exact absurd heq2 (readFull_ne_none _ _ _)
          · rename_i rc2 region sock2 heq2
            rcases readFull_some _ _ _ _ _ _ heq2 with hrc2 | ⟨hrc2, hle2, hs2⟩
            · subst hrc2
              exact ⟨_, [], by simpa using ho.symm, by simp⟩
            · subst hrc2
              simp only [lt_self_iff_false, if_false] at ho
              split at ho
              · exact ⟨_, _, ho.symm, broadcast_broadcasts send _ w⟩
              · have hshrink : (connData sock2).length < fuel := by
                  rw [hs2, hs1]; simp only [List.length_drop]
                  simp only [HEADER_SIZE] at hle ⊢; omega
                obtain ⟨r, more, hrun, hb⟩ := ih sock2 _ _ hshrink o ho
                rw [broadcast_broadcasts, List.append_assoc] at hb
                exact ⟨r, _, hrun, hb⟩


/-! ## Claims about the destination registry -/

/-- C4, as stated, fails: with 4, 5 and 6 registered and the `send` to 5 taking
only 5 of the 13 bytes, destination 5 is neither removed and closed nor handed
the bytes; it stays registered having received the first five bytes. -/
theorem broadcast_short_send_stays_registered :
    sendOutcomes sendShort5 helloFrame 0 [⟨4⟩, ⟨5⟩, ⟨6⟩] = [.ret 13, .ret 5, .ret 13] ∧
    (broadcastToDestClients sendShort5 helloFrame (worldOf [⟨4⟩, ⟨5⟩, ⟨6⟩])).1.destClients =
      [⟨4⟩, ⟨5⟩, ⟨6⟩] ∧
    (broadcastToDestClients sendShort5 helloFrame (worldOf [⟨4⟩, ⟨5⟩, ⟨6⟩])).1.closes = [] ∧
    (broadcastToDestClients sendShort5 helloFrame (worldOf [⟨4⟩, ⟨5⟩, ⟨6⟩])).1.sends =
      [⟨4, helloFrame, .ret 13⟩, ⟨5, helloFrame, .ret 5⟩, ⟨6, helloFrame, .ret 13⟩] ∧
    (⟨5, helloFrame, .ret 5⟩ : SendCall).wire = [0xCC, 0, 0, 5, 0] ∧
    (⟨5, helloFrame, .ret 5⟩ : SendCall).wire ≠ helloFrame := by
  decide

/-- C4, amended: for every registry and every buffer, when every `send` of the
call returns (with the values `rets`, one per destination present at call
start), `broadcastToDestClients` makes exactly one `send` of the full buffer to
each of those destinations, in registry order; a destination whose `send`
returned a value `≤ 0` is removed and closed; every other destination stays
registered and has been handed the first `sent` bytes of the buffer, the whole
buffer when its `send` was complete; the registry afterwards is exactly the
members whose `send` returned a positive count, in their original order,
however many of them fail. -/
theorem broadcast_isolates_failures (send : SendFn) (buffer : List Nat) (w : World)
    (rets : List Int)
    (hret : sendOutcomes send buffer w.sends.length w.destClients = rets.map SendOutcome.ret) :
    rets.length = w.destClients.length ∧
    (broadcastToDestClients send buffer w).2 = false ∧
    (broadcastToDestClients send buffer w).1.sends =
      w.sends ++ (w.destClients.zip rets).map (fun p => ⟨p.1.fd, buffer, .ret p.2⟩) ∧
    (broadcastToDestClients send buffer w).1.destClients =
      ((w.destClients.zip rets).filter (fun p => decide (¬ p.2 ≤ 0))).map Prod.fst ∧
    (broadcastToDestClients send buffer w).1.closes =
      w.closes ++ ((w.destClients.zip rets).filter (fun p => decide (p.2 ≤ 0))).map
        (fun p => p.1.fd) ∧
    (∀ p ∈ w.destClients.zip rets, p.2 ≤ 0 →
      p.1.fd ∈ (broadcastToDestClients send buffer w).1.closes) ∧
    (∀ p ∈ w.destClients.zip rets, ¬ p.2 ≤ 0 →
      p.1 ∈ (broadcastToDestClients send buffer w).1.destClients ∧
      (⟨p.1.fd, buffer, .ret p.2⟩ : SendCall) ∈ (broadcastToDestClients send buffer w).1.sends ∧
      (⟨p.1.fd, buffer, .ret p.2⟩ : SendCall).wire = buffer.take p.2.toNat ∧
      (p.2 = (buffer.length : Int) → (⟨p.1.fd, buffer, .ret p.2⟩ : SendCall).wire = buffer)) := by
  have hloop := broadcastLoop_returns send buffer w.destClients rets w.sends w.closes hret
  have hlen : rets.length = w.destClients.length := by
    have := congrArg List.length hret
    rw [sendOutcomes_length, List.length_map] at this
    exact this.symm
  have hk : (broadcastToDestClients send buffer w).2 = false := by
    simp [broadcastToDestClients, hloop]
  have hs : (broadcastToDestClients send buffer w).1.sends =
      w.sends ++ (w.destClients.zip rets).map (fun p => ⟨p.1.fd, buffer, .ret p.2⟩) := by
    simp [broadcastToDestClients, hloop]
  have hd : (broadcastToDestClients send buffer w).1.destClients =
      ((w.destClients.zip rets).filter (fun p => decide (¬ p.2 ≤ 0))).map Prod.fst := by
    simp [broadcastToDestClients, hloop]
  have hc : (broadcastToDestClients send buffer w).1.closes =
      w.closes ++ ((w.destClients.zip rets).filter (fun p => decide (p.2 ≤ 0))).map
        (fun p => p.1.fd) := by
    simp [broadcastToDestClients, hloop]
  refine ⟨hlen, hk, hs, hd, hc, ?_, ?_⟩
  · intro p hp hfail
    rw [hc]
    exact List.mem_append_right _
      (List.mem_map.mpr ⟨p, List.mem_filter.mpr ⟨hp, by simpa using hfail⟩, rfl⟩)
  · intro p hp hok
    have hpos : 0 < p.2 := by omega
    refine ⟨?_, ?_, ?_, ?_⟩
    · rw [hd]
      exact List.mem_map.mpr ⟨p, List.mem_filter.mpr ⟨hp, by simpa using hok⟩, rfl⟩
    · rw [hs]
      exact List.mem_append_right _ (List.mem_map.mpr ⟨p, hp, rfl⟩)
    · simp [SendCall.wire, hpos]
    · intro hfull
      simp [SendCall.wire, hpos, hfull]

/-- C4, amended, in the scenario of the claim: A = 4, B = 5 and C = 6 are
registered, the `send` to B fails with -1 and the "hello" frame is broadcast;
4 and 6 are handed the 13 bytes, 5 is closed and the registry becomes `[4, 6]`. -/
theorem broadcast_isolates_failures_witness :
    sendOutcomes sendClosed5 helloFrame (worldOf [⟨4⟩, ⟨5⟩, ⟨6⟩]).sends.length
      (worldOf [⟨4⟩, ⟨5⟩, ⟨6⟩]).destClients = [13, -1, 13].map SendOutcome.ret ∧
    (broadcastToDestClients sendClosed5 helloFrame (worldOf [⟨4⟩, ⟨5⟩, ⟨6⟩])).1.destClients
      = [⟨4⟩, ⟨6⟩] ∧
    (broadcastToDestClients sendClosed5 helloFrame (worldOf [⟨4⟩, ⟨5⟩, ⟨6⟩])).1.closes = [5] ∧
    (broadcastToDestClients sendClosed5 helloFrame (worldOf [⟨4⟩, ⟨5⟩, ⟨6⟩])).1.sends =
      [⟨4, helloFrame, .ret 13⟩, ⟨5, helloFrame, .ret (-1)⟩, ⟨6, helloFrame, .ret 13⟩] := by
  have h := broadcast_isolates_failures sendClosed5 helloFrame (worldOf [⟨4⟩, ⟨5⟩, ⟨6⟩])
    [13, -1, 13] (by decide)
  refine ⟨by decide, h.2.2.2.1.trans ?_, h.2.2.2.2.1.trans ?_, h.2.2.1.trans ?_⟩ <;> decide

/-- A `send` that raises `SIGPIPE` ends the call on the spot: with 4, 5 and 6
registered and the peer of 5 gone, 4 is sent the frame, the process dies in the
`send` to 5, 6 is sent nothing and nobody is removed or closed. -/
theorem broadcast_sigpipe_ends_process :
    broadcastToDestClients sendPipe5 helloFrame (worldOf [⟨4⟩, ⟨5⟩, ⟨6⟩]) =
      (⟨[⟨4⟩, ⟨5⟩, ⟨6⟩], [⟨4, helloFrame, .ret 13⟩, ⟨5, helloFrame, .sigpipe⟩], [],
        [helloFrame], []⟩, true) := by
  decide

/-- C5, as stated, fails: a `send` that takes 5 of the 13 bytes is not treated
as a failure; the destination stays registered and is not closed. -/
theorem broadcast_short_send_kept :
    sendFive 0 4 helloFrame = .ret 5 ∧ (0 : Int) < 5 ∧ (5 : Int) < (helloFrame.length : Int) ∧
    (broadcastToDestClients sendFive helloFrame (worldOf [⟨4⟩])).1.destClients = [⟨4⟩] ∧
    (broadcastToDestClients sendFive helloFrame (worldOf [⟨4⟩])).1.closes = [] ∧
    (broadcastToDestClients sendFive helloFrame (worldOf [⟨4⟩])).1.sends =
      [⟨4, helloFrame, .ret 5⟩] ∧
    (broadcastToDestClients sendFive helloFrame (worldOf [⟨4⟩])).2 = false := by
  decide

/-- C5, amended: a registry entry is treated as failed exactly when its `send`
returns a value `≤ 0`; it is then erased and closed. An entry whose `send`
returns a positive count, short or not, is kept and is not closed. Either way
the call makes one `send` per registry entry and nothing else: no retry, no
buffering. Here `c` is a registry entry and `r` the value its `send` returned,
in a call all of whose `send`s return. -/
theorem broadcast_failure_is_nonpositive_send (send : SendFn) (buffer : List Nat) (w : World)
    (rets : List Int)
    (hret : sendOutcomes send buffer w.sends.length w.destClients = rets.map SendOutcome.ret)
    (c : DestClient) (r : Int) (hc : (c, r) ∈ w.destClients.zip rets) :
    ∃ closed, (broadcastToDestClients send buffer w).1.closes = w.closes ++ closed ∧
      closed = ((w.destClients.zip rets).filter (fun p => decide (p.2 ≤ 0))).map
        (fun p => p.1.fd) ∧
      (broadcastToDestClients send buffer w).1.sends =
        w.sends ++ (w.destClients.zip rets).map (fun p => ⟨p.1.fd, buffer, .ret p.2⟩) ∧
      (broadcastToDestClients send buffer w).1.destClients =
        ((w.destClients.zip rets).filter (fun p => decide (0 < p.2))).map Prod.fst ∧
      (r ≤ 0 → c.fd ∈ closed ∧
        (c, r) ∉ (w.destClients.zip rets).filter (fun p => decide (0 < p.2))) ∧
      (0 < r → c ∈ (broadcastToDestClients send buffer w).1.destClients ∧
        (c, r) ∉ (w.destClients.zip rets).filter (fun p => decide (p.2 ≤ 0))) := by
  have hloop := broadcastLoop_returns send buffer w.destClients rets w.sends w.closes hret
  have hd : (broadcastToDestClients send buffer w).1.destClients =
      ((w.destClients.zip rets).filter (fun p => decide (0 < p.2))).map Prod.fst := by
    simp [broadcastToDestClients, hloop]
  refine ⟨_, by simp [broadcastToDestClients, hloop], rfl,
    by simp [broadcastToDestClients, hloop], hd, ?_, ?_⟩
  · intro hfail
    constructor
    · exact List.mem_map.mpr ⟨(c, r), List.mem_filter.mpr ⟨hc, by simpa using hfail⟩, rfl⟩
    · intro hmem
      have := (List.mem_filter.mp hmem).2
      simp only [decide_eq_true_eq] at this
      omega
  · intro hpos
    constructor
    · rw [hd]
      exact List.mem_map.mpr ⟨(c, r), List.mem_filter.mpr ⟨hc, by simpa using hpos⟩, rfl⟩
    · intro hmem
      have := (List.mem_filter.mp hmem).2
      simp only [decide_eq_true_eq] at this
      omega

/-- C5, amended, at a short send: destination 4 takes 5 of 13 bytes and stays. -/
theorem broadcast_failure_is_nonpositive_send_witness :
    sendOutcomes sendFive helloFrame (worldOf [⟨4⟩]).sends.length (worldOf [⟨4⟩]).destClients =
      [5].map SendOutcome.ret ∧
    ((⟨4⟩ : DestClient), (5 : Int)) ∈ (worldOf [⟨4⟩]).destClients.zip [5] ∧
    ∃ closed, (broadcastToDestClients sendFive helloFrame (worldOf [⟨4⟩])).1.closes =
        (worldOf [⟨4⟩]).closes ++ closed ∧
      closed = (((worldOf [⟨4⟩]).destClients.zip [5]).filter (fun p => decide (p.2 ≤ 0))).map
        (fun p => p.1.fd) ∧
      (broadcastToDestClients sendFive helloFrame (worldOf [⟨4⟩])).1.sends =
        (worldOf [⟨4⟩]).sends ++ ((worldOf [⟨4⟩]).destClients.zip [5]).map
          (fun p => ⟨p.1.fd, helloFrame, .ret p.2⟩) ∧
      (broadcastToDestClients sendFive helloFrame (worldOf [⟨4⟩])).1.destClients =
        (((worldOf [⟨4⟩]).destClients.zip [5]).filter (fun p => decide (0 < p.2))).map Prod.fst ∧
      ((5 : Int) ≤ 0 → (⟨4⟩ : DestClient).fd ∈ closed ∧
        ((⟨4⟩ : DestClient), (5 : Int)) ∉
          ((worldOf [⟨4⟩]).destClients.zip [5]).filter (fun p => decide (0 < p.2))) ∧
      ((0 : Int) < 5 →
        (⟨4⟩ : DestClient) ∈ (broadcastToDestClients sendFive helloFrame (worldOf [⟨4⟩])).1.destClients
          ∧ ((⟨4⟩ : DestClient), (5 : Int)) ∉
            ((worldOf [⟨4⟩]).destClients.zip [5]).filter (fun p => decide (p.2 ≤ 0))) :=
  ⟨by decide, by decide,
    broadcast_failure_is_nonpositive_send sendFive helloFrame (worldOf [⟨4⟩]) [5] (by decide)
      ⟨4⟩ 5 (by decide)⟩

/-- C6: `removeDestClient(fd)` erases only the entries equal to `fd`, but it
calls `close` on every registered connection, not only on `fd`. With 4 and 5
registered, removing the unregistered 7 closes both and keeps both registered;
removing 4 closes both and keeps 5 registered. -/
theorem removeDestClient_closes_every_client :
    (∀ (fd : Int) (w : World),
      (removeDestClient fd w).destClients = w.destClients.filter (fun c => decide (c.fd ≠ fd)) ∧
      (removeDestClient fd w).closes = w.closes ++ w.destClients.map (fun c => c.fd)) ∧
    removeDestClient 7 (worldOf [⟨4⟩, ⟨5⟩]) = ⟨[⟨4⟩, ⟨5⟩], [], [4, 5], [], []⟩ ∧
    removeDestClient 4 (worldOf [⟨4⟩, ⟨5⟩]) = ⟨[⟨5⟩], [], [4, 5], [], []⟩ := by
  refine ⟨fun fd w => ⟨removeIfLoop_kept fd w.destClients w.closes,
    removeIfLoop_closes fd w.destClients w.closes⟩, ?_, ?_⟩ <;> decide

/-! ## Claim about the readiness array -/

/-- C10: for every registry, whatever its size, the fill of lines 125-132
assigns exactly the indices `0, 1, ..., nfds - 1` of `fds`, all of them at most
`MAX_CLIENTS + 1`; afterwards `2 ≤ nfds ≤ MAX_CLIENTS + 2` and
`nfds = min (2 + number of registered destinations) (MAX_CLIENTS + 2)`, and the
array keeps its size. -/
theorem fillFds_stays_in_array (srcListener dstListener : Int)
    (destClients : List DestClient) (fds : List PollFd) :
    2 ≤ (fillFds srcListener dstListener destClients fds).nfds ∧
    (fillFds srcListener dstListener destClients fds).nfds ≤ MAX_CLIENTS + 2 ∧
    (fillFds srcListener dstListener destClients fds).nfds =
      min (2 + destClients.length) (MAX_CLIENTS + 2) ∧
    (fillFds srcListener dstListener destClients fds).writes =
      List.range (fillFds srcListener dstListener destClients fds).nfds ∧
    (∀ i ∈ (fillFds srcListener dstListener destClients fds).writes, i ≤ MAX_CLIENTS + 1) ∧
    (fillFds srcListener dstListener destClients fds).fds.length = fds.length := by
  have h := fillLoop_spec destClients
    ⟨2, (fds.set 0 ⟨srcListener, POLLIN⟩).set 1 ⟨dstListener, POLLIN⟩, [0, 1]⟩
    (by simp [MAX_CLIENTS])
  have hn : (fillFds srcListener dstListener destClients fds).nfds =
      min (2 + destClients.length) (MAX_CLIENTS + 2) := h.1
  have hw : (fillFds srcListener dstListener destClients fds).writes =
      [0, 1] ++ List.range' 2 (min (2 + destClients.length) (MAX_CLIENTS + 2) - 2) := h.2.1
  have hl : (fillFds srcListener dstListener destClients fds).fds.length = fds.length := by
    have := h.2.2; simpa using this
  have hrange : (fillFds srcListener dstListener destClients fds).writes =
      List.range (fillFds srcListener dstListener destClients fds).nfds := by
    rw [hw, hn, List.range_eq_range']
    have e : min (2 + destClients.length) (MAX_CLIENTS + 2) =
        (min (2 + destClients.length) (MAX_CLIENTS + 2) - 2) + 2 := by
      simp only [MAX_CLIENTS]; omega
    conv_rhs => rw [e, ← List.range'_append_1]
    rfl
  refine ⟨?_, ?_, hn, hrange, ?_, hl⟩
  · rw [hn]; simp only [MAX_CLIENTS]; omega
  · rw [hn]; simp only [MAX_CLIENTS]; omega
  · intro i hi
    rw [hrange, List.mem_range, hn] at hi
    simp only [MAX_CLIENTS] at hi ⊢; omega


/-! ## Claims about the source session -/

theorem header_array_length : (List.replicate HEADER_SIZE 0 : List Nat).length = 8 := by
  simp [HEADER_SIZE]

theorem handleSource_of_loop (send : SendFn) (sourceFd : Int) (sock : Conn) (w : World)
    (r : Session)
    (h : handleSourceLoop send ((connData sock).length + 1) sock (List.replicate HEADER_SIZE 0) w
      = some r) :
    ∃ r1, handleSource send sourceFd sock w = some r1 ∧
      r1.world.broadcasts = r.world.broadcasts := by
  unfold handleSource
  rw [h]
  cases hx : r.exit <;> simp [hx]

/-- The session `handleSource(sourceFd)` always ends, whatever the connection does. -/
theorem handleSource_total (send : SendFn) (sourceFd : Int) (sock : Conn) (w : World) :
    ∃ r, handleSource send sourceFd sock w = some r := by
  obtain ⟨r, -, hr, -⟩ := handleSourceLoop_total send ((connData sock).length + 1) sock
    (List.replicate HEADER_SIZE 0) w (by omega) _ rfl
  obtain ⟨r1, h1, -⟩ := handleSource_of_loop send sourceFd sock w r hr
  exact ⟨r1, h1⟩

/-- C1: for every valid frame on the source connection (header `0xCC 0x00 h2
h3 0 0 0 0` and exactly `L = 256 * h2 + h3` payload bytes, `L = 0` included),
reached after any run of earlier valid frames whose broadcasts the process
survived, however the bytes are split into arrivals and whatever `send` does
with this frame, `handleSource` ends and has handed `broadcastToDestClients` a
buffer of exactly `8 + L` bytes equal to the header followed by the payload. -/
theorem handleSource_forwards_valid_frame (send : SendFn) (sourceFd : Int) (sock : Conn)
    (w : World) (earlier : List (List Nat)) (h2 h3 : Nat) (payload rest : List Nat)
    (hearlier : ∀ f ∈ earlier, validFrame f = true)
    (hreached : (broadcastEach send earlier w).2 = false)
    (a : h2 < 256) (b : h3 < 256) (hp : payload.length = 256 * h2 + h3)
    (hs : connData sock = earlier.flatten ++ (frameHeader h2 h3 ++ payload) ++ rest) :
    ∃ r later, handleSource send sourceFd sock w = some r ∧
      r.world.broadcasts = w.broadcasts ++ earlier ++ (frameHeader h2 h3 ++ payload) :: later ∧
      (frameHeader h2 h3 ++ payload).length = 8 + (256 * h2 + h3) := by
  rw [List.append_assoc] at hs
  obtain ⟨sockA, headerA, hhA, hsA, hrun⟩ := handleSourceLoop_frames send earlier sock
    (List.replicate HEADER_SIZE 0) _ header_array_length hearlier hs
  obtain ⟨sock2, hs2, hstep⟩ := handleSourceLoop_frame send sockA headerA h2 h3 payload rest
    hhA a b hp hsA
  have hcount := validFrames_length_le _ hearlier
  have hlen := congrArg List.length hs
  simp only [List.length_append, frameHeader, List.length_cons, List.length_nil] at hlen
  have hfuel : (connData sock).length + 1 =
      ((connData sock).length - earlier.length) + 1 + earlier.length := by omega
  have hloop := (congrArg (fun n => handleSourceLoop send n sock (List.replicate HEADER_SIZE 0) w)
    hfuel).trans ((hrun _ w hreached).trans (hstep _ _))
  have hbase := broadcastEach_broadcasts send earlier w hreached
  have hsize : (frameHeader h2 h3 ++ payload).length = 8 + (256 * h2 + h3) := by
    simp [frameHeader, hp]; omega
  by_cases hk : (broadcastToDestClients send (frameHeader h2 h3 ++ payload)
      (broadcastEach send earlier w).1).2 = true
  · rw [if_pos hk] at hloop
    obtain ⟨r1, h1, hb1⟩ := handleSource_of_loop send sourceFd sock w _ hloop
    refine ⟨r1, [], h1, ?_, hsize⟩
    rw [hb1]
    show (broadcastToDestClients send _ _).1.broadcasts = _
    rw [broadcast_broadcasts, hbase]
  · rw [if_neg hk] at hloop
    obtain ⟨r, later, hr, hb⟩ := handleSourceLoop_total send
      ((connData sock).length - earlier.length) sock2 (frameHeader h2 h3)
      (broadcastToDestClients send (frameHeader h2 h3 ++ payload)
        (broadcastEach send earlier w).1).1
      (by rw [hs2]; omega) _ rfl
    rw [hr] at hloop
    obtain ⟨r1, h1, hb1⟩ := handleSource_of_loop send sourceFd sock w r hloop
    refine ⟨r1, later, h1, ?_, hsize⟩
    rw [hb1, hb, broadcast_broadcasts, hbase]
    simp

/-- C1 at the "hello" frame arriving in three pieces, the second one empty. -/
theorem handleSource_forwards_valid_frame_witness :
    (∀ f ∈ ([] : List (List Nat)), validFrame f = true) ∧
    (broadcastEach sendAll [] (worldOf [⟨4⟩])).2 = false ∧
    (0 : Nat) < 256 ∧ (5 : Nat) < 256 ∧
    ([104, 101, 108, 108, 111] : List Nat).length = 256 * 0 + 5 ∧
    connData helloConn =
      ([] : List (List Nat)).flatten ++ (frameHeader 0 5 ++ [104, 101, 108, 108, 111]) ++ [] ∧
    ∃ r later, handleSource sendAll 9 helloConn (worldOf [⟨4⟩]) = some r ∧
      r.world.broadcasts = (worldOf [⟨4⟩]).broadcasts ++ [] ++
        (frameHeader 0 5 ++ [104, 101, 108, 108, 111]) :: later ∧
      (frameHeader 0 5 ++ [104, 101, 108, 108, 111]).length = 8 + (256 * 0 + 5) :=
  ⟨by simp, by decide, by decide, by decide, by decide, by decide,
    handleSource_forwards_valid_frame sendAll 9 helloConn (worldOf [⟨4⟩]) [] 0 5
      [104, 101, 108, 108, 111] [] (by simp) (by decide) (by decide) (by decide) (by decide)
      (by decide)⟩

/-- C2: when the eight header bytes read by an iteration have a wrong magic
(`b0 ≠ 0xCC`), wrong options (`b1 ≠ 0`) or a non-zero reserved byte (`b4..b7`),
`handleSource` takes the invalid-header `break`: it writes the message to
`cerr`, leaves on the connection everything that followed the header, makes no
broadcast beyond those of the earlier valid frames, and closes `sourceFd`. The
header is reached after any run of earlier valid frames whose broadcasts the
process survived. -/
theorem handleSource_rejects_malformed_header (send : SendFn) (sourceFd : Int) (sock : Conn)
    (w : World) (earlier : List (List Nat)) (b0 b1 b2 b3 b4 b5 b6 b7 : Nat) (rest : List Nat)
    (hearlier : ∀ f ∈ earlier, validFrame f = true)
    (hreached : (broadcastEach send earlier w).2 = false)
    (hbad : b0 ≠ 0xCC ∨ b1 ≠ 0x00 ∨ b4 ≠ 0x00 ∨ b5 ≠ 0x00 ∨ b6 ≠ 0x00 ∨ b7 ≠ 0x00)
    (hs : connData sock = earlier.flatten ++ ([b0, b1, b2, b3, b4, b5, b6, b7] ++ rest)) :
    ∃ sock1, connData sock1 = rest ∧
      handleSource send sourceFd sock w =
        some ⟨sock1,
          { (broadcastEach send earlier w).1 with
            cerr := (broadcastEach send earlier w).1.cerr ++
              ["Invalid header, dropping message\n"],
            closes := (broadcastEach send earlier w).1.closes ++ [sourceFd] },
          .invalidHeader⟩ ∧
      (broadcastEach send earlier w).1.broadcasts = w.broadcasts ++ earlier := by
  obtain ⟨sockA, headerA, hhA, hsA, hrun⟩ := handleSourceLoop_frames send earlier sock
    (List.replicate HEADER_SIZE 0) _ header_array_length hearlier hs
  have hinv : headerInvalid [b0, b1, b2, b3, b4, b5, b6, b7] = true := by
    simp only [headerInvalid, MAGIC_BYTE, List.getD_cons_zero, List.getD_cons_succ,
      Bool.or_eq_true, bne_iff_ne, ne_eq]
    tauto
  obtain ⟨sock1, -, hs1, hstop⟩ := handleSourceLoop_invalid send sockA headerA
    [b0, b1, b2, b3, b4, b5, b6, b7] rest hhA rfl hinv hsA
  have hcount := validFrames_length_le _ hearlier
  have hlen := congrArg List.length hs
  simp only [List.length_append, List.length_cons, List.length_nil] at hlen
  have hfuel : (connData sock).length + 1 =
      ((connData sock).length - earlier.length) + 1 + earlier.length := by omega
  have hloop := (congrArg (fun n => handleSourceLoop send n sock (List.replicate HEADER_SIZE 0) w)
    hfuel).trans ((hrun _ w hreached).trans (hstop _ _))
  refine ⟨sock1, hs1, ?_, broadcastEach_broadcasts send earlier w hreached⟩
  simp [handleSource, hloop]

/-- C2 at magic `0xAB`, with further bytes behind the header. -/
theorem handleSource_rejects_malformed_header_witness :
    (∀ f ∈ ([] : List (List Nat)), validFrame f = true) ∧
    (broadcastEach sendAll [] (worldOf [⟨4⟩])).2 = false ∧
    ((0xAB : Nat) ≠ 0xCC ∨ (0 : Nat) ≠ 0x00 ∨ (0 : Nat) ≠ 0x00 ∨ (0 : Nat) ≠ 0x00 ∨
      (0 : Nat) ≠ 0x00 ∨ (0 : Nat) ≠ 0x00) ∧
    connData badMagicConn =
      ([] : List (List Nat)).flatten ++ ([0xAB, 0, 0, 1, 0, 0, 0, 0] ++ [7, 0xCC]) ∧
    ∃ sock1, connData sock1 = [7, 0xCC] ∧
      handleSource sendAll 9 badMagicConn (worldOf [⟨4⟩]) =
        some ⟨sock1,
          { (broadcastEach sendAll [] (worldOf [⟨4⟩])).1 with
            cerr := (broadcastEach sendAll [] (worldOf [⟨4⟩])).1.cerr ++
              ["Invalid header, dropping message\n"],
            closes := (broadcastEach sendAll [] (worldOf [⟨4⟩])).1.closes ++ [9] },
          .invalidHeader⟩ ∧
      (broadcastEach sendAll [] (worldOf [⟨4⟩])).1.broadcasts =
        (worldOf [⟨4⟩]).broadcasts ++ [] :=
  ⟨by simp, by decide, by decide, by decide,
    handleSource_rejects_malformed_header sendAll 9 badMagicConn (worldOf [⟨4⟩]) [] 0xAB 0 0 1
      0 0 0 0 [7, 0xCC] (by simp) (by decide) (by decide) (by decide)⟩

/-- C3: when a valid header announcing `L = 256 * h2 + h3` is followed by
fewer than `L` payload bytes before the connection closes or errors,
`handleSource` takes the payload-read `break`: the incomplete frame is not
broadcast (the only broadcasts are those of the earlier valid frames) and
`sourceFd` is closed. The header is reached after any run of earlier valid
frames whose broadcasts the process survived. -/
theorem handleSource_truncated_payload (send : SendFn) (sourceFd : Int) (sock : Conn)
    (w : World) (earlier : List (List Nat)) (h2 h3 : Nat) (part : List Nat)
    (hearlier : ∀ f ∈ earlier, validFrame f = true)
    (hreached : (broadcastEach send earlier w).2 = false)
    (a : h2 < 256) (b : h3 < 256) (hp : part.length < 256 * h2 + h3)
    (hs : connData sock = earlier.flatten ++ (frameHeader h2 h3 ++ part)) :
    ∃ sock1, handleSource send sourceFd sock w =
        some ⟨sock1,
          { (broadcastEach send earlier w).1 with
            closes := (broadcastEach send earlier w).1.closes ++ [sourceFd] },
          .payloadRead⟩ ∧
      (broadcastEach send earlier w).1.broadcasts = w.broadcasts ++ earlier := by
  obtain ⟨sockA, headerA, hhA, hsA, hrun⟩ := handleSourceLoop_frames send earlier sock
    (List.replicate HEADER_SIZE 0) _ header_array_length hearlier hs
  obtain ⟨sock1, hstop⟩ := handleSourceLoop_short_payload send sockA headerA h2 h3 part
    hhA a b hp hsA
  have hcount := validFrames_length_le _ hearlier
  have hlen := congrArg List.length hs
  simp only [List.length_append, frameHeader, List.length_cons, List.length_nil] at hlen
  have hfuel : (connData sock).length + 1 =
      ((connData sock).length - earlier.length) + 1 + earlier.length := by omega
  have hloop := (congrArg (fun n => handleSourceLoop send n sock (List.replicate HEADER_SIZE 0) w)
    hfuel).trans ((hrun _ w hreached).trans (hstop _ _))
  refine ⟨sock1, ?_, broadcastEach_broadcasts send earlier w hreached⟩
  simp [handleSource, hloop]

/-- C3 at a header announcing 5 bytes followed by 2 bytes and an error. -/
theorem handleSource_truncated_payload_witness :
    (∀ f ∈ ([] : List (List Nat)), validFrame f = true) ∧
    (broadcastEach sendAll [] (worldOf [⟨4⟩])).2 = false ∧
    (0 : Nat) < 256 ∧ (5 : Nat) < 256 ∧
    ([104, 101] : List Nat).length < 256 * 0 + 5 ∧
    connData truncatedConn =
      ([] : List (List Nat)).flatten ++ (frameHeader 0 5 ++ [104, 101]) ∧
    ∃ sock1, handleSource sendAll 9 truncatedConn (worldOf [⟨4⟩]) =
        some ⟨sock1,
          { (broadcastEach sendAll [] (worldOf [⟨4⟩])).1 with
            closes := (broadcastEach sendAll [] (worldOf [⟨4⟩])).1.closes ++ [9] },
          .payloadRead⟩ ∧
      (broadcastEach sendAll [] (worldOf [⟨4⟩])).1.broadcasts =
        (worldOf [⟨4⟩]).broadcasts ++ [] :=
  ⟨by simp, by decide, by decide, by decide, by decide, by decide,
    handleSource_truncated_payload sendAll 9 truncatedConn (worldOf [⟨4⟩]) [] 0 5 [104, 101]
      (by simp) (by decide) (by decide) (by decide) (by decide) (by decide)⟩


/-- When the process survives every broadcast, a connection that delivers the
valid frames `f1, ..., fn` and then closes makes `handleSource` broadcast
exactly `f1, ..., fn`, in that order, leave the loop at the next header read
and close `sourceFd`. -/
theorem handleSource_frames_in_order_when_alive (send : SendFn) (sourceFd : Int) (sock : Conn)
    (w : World) (frames : List (List Nat))
    (hv : ∀ f ∈ frames, validFrame f = true)
    (halive : (broadcastEach send frames w).2 = false)
    (hs : connData sock = frames.flatten) :
    (∃ sock1, handleSource send sourceFd sock w =
        some ⟨sock1,
          { (broadcastEach send frames w).1 with
            closes := (broadcastEach send frames w).1.closes ++ [sourceFd] },
          .headerRead⟩) ∧
    (broadcastEach send frames w).1.broadcasts = w.broadcasts ++ frames := by
  refine ⟨?_, broadcastEach_broadcasts send frames w halive⟩
  obtain ⟨sockA, headerA, hhA, hsA, hrun⟩ := handleSourceLoop_frames send frames sock
    (List.replicate HEADER_SIZE 0) [] header_array_length hv (by simpa using hs)
  obtain ⟨sock1, hstop⟩ := handleSourceLoop_no_header send sockA headerA (by simp [hsA])
  have hcount := validFrames_length_le _ hv
  have hlen := congrArg List.length hs
  have hfuel : (connData sock).length + 1 =
      ((connData sock).length - frames.length) + 1 + frames.length := by omega
  have hloop := (congrArg
    (fun n => handleSourceLoop send n sock (List.replicate HEADER_SIZE 0) w)
    hfuel).trans ((hrun _ w halive).trans (hstop _ _))
  exact ⟨sock1, by simp [handleSource, hloop]⟩

/-- C8: the source delivers three valid "hello" frames and closes; one
consumer (descriptor 5) is registered and its peer goes away after the first
frame. The first frame is broadcast, the `send` of the second raises `SIGPIPE`
and terminates the session: only two of the three broadcasts are made, the
third frame stays unread on the connection and `close(sourceFd)` is never
reached. With every `send` returning, the same input gives the three
broadcasts in order. -/
theorem handleSource_killed_before_last_frame :
    (∀ f ∈ [helloFrame, helloFrame, helloFrame], validFrame f = true) ∧
    connData threeFramesConn = [helloFrame, helloFrame, helloFrame].flatten ∧
    handleSource sendThenPipe 9 threeFramesConn (worldOf [⟨5⟩]) =
      some ⟨[.data helloFrame],
        ⟨[⟨5⟩], [⟨5, helloFrame, .ret 13⟩, ⟨5, helloFrame, .sigpipe⟩], [],
          [helloFrame, helloFrame], []⟩,
        .killed⟩ ∧
    handleSource sendAll 9 threeFramesConn (worldOf [⟨5⟩]) =
      some ⟨[],
        ⟨[⟨5⟩], [⟨5, helloFrame, .ret 13⟩, ⟨5, helloFrame, .ret 13⟩, ⟨5, helloFrame, .ret 13⟩],
          [9], [helloFrame, helloFrame, helloFrame], []⟩,
        .headerRead⟩ := by
  decide

/-! ## Claims about the multiplexer -/

theorem mainIter_children (srcListener dstListener : Int) (r : Ready) (s : MainState) :
    (mainIter srcListener dstListener r s).children =
      if r.srcIn = true ∧ s.sourceFd < 0 ∧ r.srcAccept ≥ 0 ∧ r.forked = true then
        s.children ++ [⟨r.srcAccept, { s.world with sends := [], closes := [srcListener, dstListener],
                                                    broadcasts := [], cerr := [] }⟩]
      else s.children := by
  by_cases h : r.srcIn = true ∧ s.sourceFd < 0 ∧ r.srcAccept ≥ 0 ∧ r.forked = true
  · rw [if_pos h]
    obtain ⟨a, b, c, d⟩ := h
    unfold mainIter
    by_cases h4 : r.dstIn = true <;> by_cases h5 : r.dstAccept ≥ 0 <;>
      simp [a, b, c, d, h4, h5]
  · rw [if_neg h]
    unfold mainIter
    by_cases h1 : r.srcIn = true ∧ s.sourceFd < 0
    · by_cases h2 : r.srcAccept ≥ 0
      · have h3 : ¬ r.forked = true := fun hf => h ⟨h1.1, h1.2, h2, hf⟩
        by_cases h4 : r.dstIn = true <;> by_cases h5 : r.dstAccept ≥ 0 <;>
          simp [h1, h2, h3, h4, h5]
      · by_cases h4 : r.dstIn = true <;> by_cases h5 : r.dstAccept ≥ 0 <;>
          simp [h1, h2, h4, h5]
    · by_cases h4 : r.dstIn = true <;> by_cases h5 : r.dstAccept ≥ 0 <;>
        simp [h1, h4, h5]

theorem mainIter_sourceFd (srcListener dstListener : Int) (r : Ready) (s : MainState)
    (h : s.sourceFd < 0) : (mainIter srcListener dstListener r s).sourceFd < 0 := by
  unfold mainIter
  by_cases h1 : r.srcIn = true ∧ s.sourceFd < 0
  · by_cases h2 : r.srcAccept ≥ 0
    · by_cases h4 : r.dstIn = true <;> by_cases h5 : r.dstAccept ≥ 0 <;>
        simp [h1, h2, h4, h5]
    · have h2n : r.srcAccept < 0 := by omega
      by_cases h4 : r.dstIn = true <;> by_cases h5 : r.dstAccept ≥ 0 <;>
        simp [h1, h2, h4, h5, h2n]
  · have hs : ¬ r.srcIn = true := fun a => h1 ⟨a, h⟩
    by_cases h4 : r.dstIn = true <;> by_cases h5 : r.dstAccept ≥ 0 <;>
      simp [hs, h4, h5, h]

theorem mainLoop_sourceFd (srcListener dstListener : Int) (rs : List Ready) :
    ∀ s : MainState, s.sourceFd < 0 → (mainLoop srcListener dstListener rs s).sourceFd < 0 := by
  induction rs with
  | nil => intro s h; exact h
  | cons r rest ih =>
    intro s h
    exact ih _ (mainIter_sourceFd srcListener dstListener r s h)

/-- C7: the guard `sourceFd < 0` of line 136 never closes the source slot,
because the parent sets `sourceFd = -1` again right after `fork` (line 147):
at every loop head `sourceFd < 0`, so with the session of a first producer
(descriptor 7) still running, a second producer is accepted and a second
`handleSource` session is forked. -/
theorem main_forks_second_session :
    (∀ (srcListener dstListener : Int) (rs : List Ready),
      (mainLoop srcListener dstListener rs mainInit).sourceFd < 0) ∧
    (mainLoop 3 4 [sourceArrives] mainInit).children = [⟨7, ⟨[], [], [3, 4], [], []⟩⟩] ∧
    (mainLoop 3 4 [sourceArrives, sourceArrives] mainInit).children =
      [⟨7, ⟨[], [], [3, 4], [], []⟩⟩, ⟨7, ⟨[], [], [3, 4], [], []⟩⟩] ∧
    (mainLoop 3 4 [sourceArrives, sourceArrives] mainInit).world.closes = [7, 7] := by
  refine ⟨fun a b rs => mainLoop_sourceFd a b rs mainInit (by decide), ?_, ?_, ?_⟩ <;> decide

/-- C9: the session broadcasts to the copy of `destClients` that `fork` gave
its process, while `addDestClient` runs in the parent: no iteration of the
multiplexer loop changes a session already forked. A producer connects, then a
consumer (descriptor 8): the multiplexer's registry is `[8]`, the running
session's registry is still empty, and the "hello" frame the session then
decodes is sent to nobody. -/
theorem session_misses_later_destination :
    (∀ (srcListener dstListener : Int) (r : Ready) (s : MainState),
      ∃ forked, (mainIter srcListener dstListener r s).children = s.children ++ forked ∧
        ∀ c ∈ forked, c.world.destClients = s.world.destClients) ∧
    (mainLoop 3 4 [sourceArrives, destArrives] mainInit).world.destClients = [⟨8⟩] ∧
    (mainLoop 3 4 [sourceArrives, destArrives] mainInit).children =
      [⟨7, ⟨[], [], [3, 4], [], []⟩⟩] ∧
    childRun sendAll [.data helloFrame] ⟨7, ⟨[], [], [3, 4], [], []⟩⟩ =
      some ⟨[], ⟨[], [], [3, 4, 7], [helloFrame], []⟩, .headerRead⟩ := by
  refine ⟨?_, by decide, by decide, by decide⟩
  intro srcListener dstListener r s
  rw [mainIter_children]
  by_cases h : r.srcIn = true ∧ s.sourceFd < 0 ∧ r.srcAccept ≥ 0 ∧ r.forked = true
  · rw [if_pos h]
    refine ⟨_, rfl, ?_⟩
    intro c hc
    rw [List.mem_singleton] at hc
    subst hc
    rfl
  · rw [if_neg h]
    exact ⟨[], by simp, by simp⟩

end WireStorm
